import Mathlib

/-!
Verification of the Green's-function temperature-rise engine (greens.rs).

The source computes over arbitrary-precision floats (rug); the library
primitives `exp`, `sqrt`, `erf`, the special-function `marcum_q`, and the
quadrature engine are external collaborators.  We embed the code over an
arbitrary linear ordered field `R`, with the external primitives supplied
as an abstract `Ops R` record (so every theorem holds for any
implementation of the numeric backend), and the `precision` bit-width
threaded through exactly as in the source (it selects rounding there; in
the exact-arithmetic model it has no semantic effect).
-/

namespace Greens

/-- External numeric primitives used by greens.rs: the float library's
`exp`, `sqrt`, `erf` and the utilities module's generalized Marcum-Q
approximation `marcum_q(order, a, b, precision)`. -/
structure Ops (R : Type) where
  exp : R → R
  sqrt : R → R
  erf : R → R
  marcum_q : ℕ → R → R → ℕ → R

/-- External quadrature engine: `integrate(f, epsilon, bounds)` returning
an approximation of the integral together with an error estimate. -/
structure Quadrature (R : Type) where
  integrate : (R → R) → R → R × R → R × R

/-- Bulk material constants (struct ThermalProperties). -/
structure ThermalProperties (R : Type) where
  rho : R
  c : R
  k : R
deriving DecidableEq

/-- One absorbing slab (struct Layer): thickness `d`, top depth `z0`,
absorption coefficient `mu_a`, top-surface irradiance `e0`. -/
structure Layer (R : Type) where
  d : R
  z0 : R
  mu_a : R
  e0 : R
deriving DecidableEq

/-- A validated stack of layers (struct MultiLayer). -/
structure MultiLayer (R : Type) where
  layers : List (Layer R)
deriving DecidableEq

variable {R : Type} [LinearOrderedField R]

/-- The comparison used by the sort in MultiLayer::new
(`a.z0.total_cmp(&b.z0)`): ascending by the top depth `z0`. -/
def z0le (a b : Layer R) : Prop := a.z0 ≤ b.z0

/-- Strict version of `z0le`, used to reason about sorted stacks. -/
def z0lt (a b : Layer R) : Prop := a.z0 < b.z0

instance : DecidableRel (z0le (R := R)) :=
  fun a b => inferInstanceAs (Decidable (a.z0 ≤ b.z0))

instance : IsTotal (Layer R) z0le := ⟨fun a b => le_total a.z0 b.z0⟩

instance : IsTrans (Layer R) z0le := ⟨fun _ _ _ h h' => le_trans h h'⟩

instance : IsTrans (Layer R) z0lt := ⟨fun _ _ _ h h' => lt_trans h h'⟩

instance : IsAntisymm (Layer R) z0lt := ⟨fun _ _ h h' => absurd h (lt_asymm h')⟩

/-- The sort in MultiLayer::new: `layers.sort_by(|a, b| a.z0.total_cmp(&b.z0))`,
a comparison sort ascending by `z0`. -/
def sortLayers (layers : List (Layer R)) : List (Layer R) :=
  layers.insertionSort z0le

/-- The non-overlap condition between consecutive sorted layers: the lower
layer starts at or below the bottom surface of the upper one. -/
def fits (a b : Layer R) : Prop := a.z0 + a.d ≤ b.z0

/-- The propagation loop of MultiLayer::new over the sorted tail: carries the
irradiance `e0` leaving the previous layer and the previous layer's bottom
depth `z0`; fails when the next layer starts strictly above that bottom,
otherwise overwrites the layer's `e0` with the carried irradiance and
attenuates the carry by Beer's law through it. -/
def propagate (ops : Ops R) : R → R → List (Layer R) → Option (List (Layer R))
  | _, _, [] => some []
  | e0, z0, layer :: rest =>
    if layer.z0 < z0 then none
    else
      match propagate ops (e0 * ops.exp (layer.d * layer.mu_a * (-1))) (layer.z0 + layer.d) rest with
      | none => none
      | some rest' => some ({ layer with e0 := e0 } :: rest')

/-- MultiLayer::new: sort the input by `z0`, keep the first layer as-is, and
run the propagation loop over the remaining layers. -/
def MultiLayer.new (ops : Ops R) (input_layers : List (Layer R)) : Option (MultiLayer R) :=
  match sortLayers input_layers with
  | [] => some ⟨[]⟩
  | layer :: rest =>
    let e0 := layer.e0 * ops.exp (layer.d * layer.mu_a * (-1))
    let z0 := layer.z0 + layer.d
    match propagate ops e0 z0 rest with
    | none => none
    | some rest' => some ⟨layer :: rest'⟩

/-- impl Beam for LargeBeam: the planar Green's-function solution, following
the source's operation order exactly.  `_r` is ignored, as in the source. -/
def LargeBeam.evaluate_with (ops : Ops R) (precision : ℕ)
    (thermal_properties : ThermalProperties R) (layer : Layer R) (z _r t : R) : R :=
  let alpha := thermal_properties.k / thermal_properties.rho / thermal_properties.c
  let term_1 := layer.mu_a * layer.e0 / thermal_properties.rho / thermal_properties.c / 2
  let term_2 := ops.exp ((z - layer.z0) * layer.mu_a * (-1))
  if t = 0 then term_1 * term_2
  else
    let term_3 := ops.exp (layer.mu_a ^ 2 * t * alpha)
    let reciprocal_sqrt := (ops.sqrt (alpha * t * 4))⁻¹
    let sqrt_mu_a := ops.sqrt (alpha * t) * layer.mu_a
    let argument_1 := ops.erf ((layer.z0 + layer.d - z) * reciprocal_sqrt + sqrt_mu_a)
    let argument_2 := ops.erf ((layer.z0 - z) * reciprocal_sqrt + sqrt_mu_a)
    let term_4 := argument_1 - argument_2
    term_1 * term_2 * term_3 * term_4

/-- impl Beam for FlatTopBeam: lateral truncation of the LargeBeam value,
following the source's operation order exactly. -/
def FlatTopBeam.evaluate_with (radius : R) (ops : Ops R) (precision : ℕ)
    (thermal_properties : ThermalProperties R) (layer : Layer R) (z r t : R) : R :=
  if t = 0 ∧ radius < r then 0
  else
    let z_factor := LargeBeam.evaluate_with ops precision thermal_properties layer z r t
    if t = 0 then z_factor
    else
      let alpha := thermal_properties.k / thermal_properties.rho / thermal_properties.c
      z_factor *
        if r = 0 then
          1 - ops.exp (radius ^ 2 / (-4) / alpha / t)
        else
          let a := (2 * alpha * t)⁻¹
          let b := a * radius
          let a := a * r
          1 - ops.marcum_q 1 a b precision

/-- The Beam trait has exactly two implementations in the source. -/
inductive Beam (R : Type) where
  | largeBeam : Beam R
  | flatTopBeam (radius : R) : Beam R
deriving DecidableEq

/-- Trait dispatch for Beam::evaluate_with. -/
def Beam.evaluate_with (beam : Beam R) (ops : Ops R) (precision : ℕ)
    (thermal_properties : ThermalProperties R) (layer : Layer R) (z r t : R) : R :=
  match beam with
  | .largeBeam => LargeBeam.evaluate_with ops precision thermal_properties layer z r t
  | .flatTopBeam radius =>
      FlatTopBeam.evaluate_with radius ops precision thermal_properties layer z r t

/-- MultiLayer::evaluate_with: a running sum starting from zero over the
contained layers. -/
def MultiLayer.evaluate_with (ml : MultiLayer R) (ops : Ops R) (precision : ℕ)
    (beam : Beam R) (thermal_properties : ThermalProperties R) (z r t : R) : R :=
  ml.layers.foldl
    (fun sum layer => sum + beam.evaluate_with ops precision thermal_properties layer z r t) 0

/-- Free function temperature_rise: hands the one-argument integrand to the
quadrature engine. -/
def temperature_rise (ops : Ops R) (precision : ℕ) (quadrature : Quadrature R)
    (beam : Beam R) (thermal_properties : ThermalProperties R) (layer : Layer R)
    (z r epsilon : R) (bounds : R × R) : R × R :=
  quadrature.integrate
    (fun t => beam.evaluate_with ops precision thermal_properties layer z r t) epsilon bounds

/-- MultiLayer::temperature_rise: same shape at the stack level. -/
def MultiLayer.temperature_rise (ml : MultiLayer R) (ops : Ops R) (precision : ℕ)
    (quadrature : Quadrature R) (beam : Beam R) (thermal_properties : ThermalProperties R)
    (z r epsilon : R) (bounds : R × R) : R × R :=
  quadrature.integrate
    (fun t => ml.evaluate_with ops precision beam thermal_properties z r t) epsilon bounds

/-- A concrete numeric backend over the rationals, used to instantiate the
general theorems at concrete inputs (the theorems hold for every backend). -/
def qOps : Ops ℚ where
  exp := fun _ => 1
  sqrt := fun _ => 1
  erf := fun _ => 1
  marcum_q := fun _ _ _ _ => 0

/-- All thermal properties one, as in the source's test fixtures. -/
def testProperties : ThermalProperties ℚ := ⟨1, 1, 1⟩

/-- The source's test fixture layer: d = 1, z0 = 0, mu_a = 1, e0 = 1. -/
def testLayer : Layer ℚ := ⟨1, 0, 1, 1⟩

/-! ### Helper lemmas about the construction pass -/

/-- The acceptance condition of the propagation loop, carrying the previous
bottom depth: every layer starts at or below the carried bottom. -/
def chainFrom : R → List (Layer R) → Prop
  | _, [] => True
  | zb, x :: xs => zb ≤ x.z0 ∧ chainFrom (x.z0 + x.d) xs

/-- The irradiance bookkeeping performed by the propagation loop: each
layer's stored `e0` is the carried irradiance, which is then attenuated by
Beer's law through that layer. -/
def e0chain (ops : Ops R) : R → List (Layer R) → Prop
  | _, [] => True
  | e, x :: xs => x.e0 = e ∧ e0chain ops (e * ops.exp (x.d * x.mu_a * (-1))) xs

/-- The fields of a layer that MultiLayer::new never modifies. -/
def shape (x : Layer R) : R × R × R := (x.d, x.z0, x.mu_a)

lemma propagate_cons (ops : Ops R) (e zb : R) (x : Layer R) (xs : List (Layer R)) :
    propagate ops e zb (x :: xs) =
      if x.z0 < zb then none
      else
        (propagate ops (e * ops.exp (x.d * x.mu_a * (-1))) (x.z0 + x.d) xs).map
          (fun rest' => { x with e0 := e } :: rest') := by
  by_cases hx : x.z0 < zb
  · simp [propagate, hx]
  · simp only [propagate, if_neg hx]
    cases propagate ops (e * ops.exp (x.d * x.mu_a * (-1))) (x.z0 + x.d) xs <;> rfl

lemma propagate_eq_none_iff (ops : Ops R) :
    ∀ (l : List (Layer R)) (e zb : R), propagate ops e zb l = none ↔ ¬ chainFrom zb l := by
  intro l
  induction l with
  | nil => intro e zb; simp [propagate, chainFrom]
  | cons x xs ih =>
    intro e zb
    rw [propagate_cons, chainFrom]
    by_cases hx : x.z0 < zb
    · simp [hx, not_le.2 hx]
    · simp [hx, not_lt.1 hx, Option.map_eq_none, ih]

lemma propagate_some_e0chain (ops : Ops R) :
    ∀ (l : List (Layer R)) (e zb : R) (l' : List (Layer R)),
      propagate ops e zb l = some l' → e0chain ops e l' := by
  intro l
  induction l with
  | nil =>
    intro e zb l' h
    simp only [propagate, Option.some.injEq] at h
    rw [← h]
    trivial
  | cons x xs ih =>
    intro e zb l' h
    rw [propagate_cons] at h
    by_cases hx : x.z0 < zb
    · rw [if_pos hx] at h; cases h
    · rw [if_neg hx, Option.map_eq_some'] at h
      obtain ⟨rest', hrest, hl'⟩ := h
      rw [← hl']
      exact ⟨rfl, ih _ _ rest' hrest⟩

lemma propagate_some_shape (ops : Ops R) :
    ∀ (l : List (Layer R)) (e zb : R) (l' : List (Layer R)),
      propagate ops e zb l = some l' → l'.map shape = l.map shape := by
  intro l
  induction l with
  | nil =>
    intro e zb l' h
    simp only [propagate, Option.some.injEq] at h
    rw [← h]
  | cons x xs ih =>
    intro e zb l' h
    rw [propagate_cons] at h
    by_cases hx : x.z0 < zb
    · rw [if_pos hx] at h; cases h
    · rw [if_neg hx, Option.map_eq_some'] at h
      obtain ⟨rest', hrest, hl'⟩ := h
      rw [← hl']
      simp only [List.map_cons, ih _ _ rest' hrest]
      rfl

lemma chainFrom_cons_iff (a : Layer R) :
    ∀ l : List (Layer R), chainFrom (a.z0 + a.d) l ↔ List.Chain' fits (a :: l) := by
  intro l
  induction l generalizing a with
  | nil => simp [chainFrom]
  | cons x xs ih =>
    rw [chainFrom, List.chain'_cons]
    exact and_congr Iff.rfl (ih x)

lemma e0chain_get (ops : Ops R) :
    ∀ (l : List (Layer R)) (e : R), e0chain ops e l →
      ∀ (i : ℕ) (hi : i + 1 < l.length),
        (l.get ⟨i + 1, hi⟩).e0
          = (l.get ⟨i, Nat.lt_of_succ_lt hi⟩).e0
            * ops.exp ((l.get ⟨i, Nat.lt_of_succ_lt hi⟩).d
                * (l.get ⟨i, Nat.lt_of_succ_lt hi⟩).mu_a * (-1)) := by
  intro l
  induction l with
  | nil => intro e _ i hi; exact absurd hi (by simp)
  | cons x xs ih =>
    intro e hch i hi
    cases i with
    | zero =>
      cases xs with
      | nil => exact absurd hi (by simp)
      | cons y ys =>
        have hy : y.e0 = e * ops.exp (x.d * x.mu_a * (-1)) := hch.2.1
        have hx : x.e0 = e := hch.1
        simpa [hx] using hy
    | succ j =>
      have hj : j + 1 < xs.length := by simpa using hi
      simpa using ih _ hch.2 j hj

lemma sortLayers_perm (l : List (Layer R)) : List.Perm (sortLayers l) l :=
  List.perm_insertionSort z0le l

lemma sortLayers_sorted (l : List (Layer R)) : List.Sorted z0le (sortLayers l) :=
  List.sorted_insertionSort z0le l

lemma new_eq_none_iff (ops : Ops R) (input : List (Layer R)) :
    MultiLayer.new ops input = none ↔ ¬ List.Chain' fits (sortLayers input) := by
  cases hs : sortLayers input with
  | nil => simp [MultiLayer.new, hs]
  | cons layer rest =>
    have hiff := propagate_eq_none_iff ops rest
      (layer.e0 * ops.exp (layer.d * layer.mu_a * (-1))) (layer.z0 + layer.d)
    simp only [MultiLayer.new, hs]
    rw [← chainFrom_cons_iff layer rest]
    cases hp : propagate ops (layer.e0 * ops.exp (layer.d * layer.mu_a * (-1)))
        (layer.z0 + layer.d) rest with
    | none =>
      simp only [hp]
      exact iff_of_true trivial (hiff.1 hp)
    | some rest' =>
      have hchain : chainFrom (layer.z0 + layer.d) rest := by
        by_contra hcon
        have := hiff.2 hcon
        rw [hp] at this
        cases this
      simp only [hp]
      exact iff_of_false (by simp) (not_not_intro hchain)

lemma new_some_cases (ops : Ops R) (input : List (Layer R)) (ml : MultiLayer R)
    (h : MultiLayer.new ops input = some ml) :
    (sortLayers input = [] ∧ ml = ⟨[]⟩)
      ∨ ∃ layer rest rest', sortLayers input = layer :: rest
          ∧ propagate ops (layer.e0 * ops.exp (layer.d * layer.mu_a * (-1)))
              (layer.z0 + layer.d) rest = some rest'
          ∧ ml = ⟨layer :: rest'⟩ := by
  cases hs : sortLayers input with
  | nil =>
    left
    simp only [MultiLayer.new, hs, Option.some.injEq] at h
    exact ⟨rfl, h.symm⟩
  | cons layer rest =>
    right
    simp only [MultiLayer.new, hs] at h
    cases hp : propagate ops (layer.e0 * ops.exp (layer.d * layer.mu_a * (-1)))
        (layer.z0 + layer.d) rest with
    | none => rw [hp] at h; cases h
    | some rest' =>
      rw [hp, Option.some.injEq] at h
      exact ⟨layer, rest, rest', rfl, hp, h.symm⟩

lemma chain'_fits_imp_lt :
    ∀ l : List (Layer R), (∀ x ∈ l, 0 < x.d) →
      List.Chain' fits l → List.Chain' z0lt l
  | [], _, _ => by simp
  | [_], _, _ => by simp
  | a :: b :: tl, hd, hc => by
    rw [List.chain'_cons] at hc ⊢
    refine ⟨?_, chain'_fits_imp_lt (b :: tl) (fun x hx => hd x (List.mem_cons_of_mem a hx)) hc.2⟩
    exact lt_of_lt_of_le (lt_add_of_pos_right a.z0 (hd a (List.mem_cons_self a _))) hc.1

/-- Two sorted permutations of the same layers, all of positive thickness,
on which the overlap check succeeds, are the same list. -/
lemma sorted_eq_of_perm_of_chain' (l₁ l₂ : List (Layer R)) (hd : ∀ x ∈ l₁, 0 < x.d)
    (hp : List.Perm l₁ l₂) (hs₂ : List.Sorted z0le l₂)
    (hc : List.Chain' fits l₁) : l₁ = l₂ := by
  have hlt₁ : List.Pairwise z0lt l₁ :=
    List.chain'_iff_pairwise.1 (chain'_fits_imp_lt l₁ hd hc)
  have hne₁ : List.Pairwise (fun a b : Layer R => a.z0 ≠ b.z0) l₁ :=
    hlt₁.imp ne_of_lt
  have hne₂ : List.Pairwise (fun a b : Layer R => a.z0 ≠ b.z0) l₂ :=
    (hp.pairwise_iff (fun h => Ne.symm h)).1 hne₁
  have hlt₂ : List.Pairwise z0lt l₂ :=
    (hs₂.and hne₂).imp (fun h => lt_of_le_of_ne h.1 h.2)
  exact List.eq_of_perm_of_sorted hp hlt₁ hlt₂

lemma foldl_add_map (f : Layer R → R) :
    ∀ (l : List (Layer R)) (a : R),
      l.foldl (fun s x => s + f x) a = a + (l.map f).sum := by
  intro l
  induction l with
  | nil => intro a; simp
  | cons x xs ih => intro a; simp [ih, add_assoc]

/-! ### The claims -/

/-- Claim C3: MultiLayer::new fails (returns none) exactly when, after
sorting the input ascending by z0, some layer starts strictly above the
previous layer's bottom surface (exact contact is accepted); for layers of
positive thickness, as the data model requires, this outcome is the same
for every ordering of the input; and the empty input always succeeds with
an empty MultiLayer. -/
theorem multiLayer_new_overlap (ops : Ops R) (input input' : List (Layer R))
    (hd : ∀ l ∈ input, 0 < l.d) (hperm : List.Perm input input') :
    (MultiLayer.new ops input = none ↔ ¬ List.Chain' fits (sortLayers input))
      ∧ (MultiLayer.new ops input = none ↔ MultiLayer.new ops input' = none)
      ∧ MultiLayer.new ops ([] : List (Layer R)) = some ⟨[]⟩ := by
  refine ⟨new_eq_none_iff ops input, ?_, rfl⟩
  rw [new_eq_none_iff ops input, new_eq_none_iff ops input']
  have hd₁ : ∀ x ∈ sortLayers input, 0 < x.d :=
    fun x hx => hd x ((sortLayers_perm input).mem_iff.1 hx)
  have hd₂ : ∀ x ∈ sortLayers input', 0 < x.d :=
    fun x hx => hd x (hperm.mem_iff.2 ((sortLayers_perm input').mem_iff.1 hx))
  have hp12 : List.Perm (sortLayers input) (sortLayers input') :=
    ((sortLayers_perm input).trans hperm).trans (sortLayers_perm input').symm
  apply not_congr
  constructor
  · intro hc
    rw [sorted_eq_of_perm_of_chain' (sortLayers input) (sortLayers input') hd₁ hp12
      (sortLayers_sorted input') hc] at hc
    exact hc
  · intro hc
    rw [sorted_eq_of_perm_of_chain' (sortLayers input') (sortLayers input) hd₂ hp12.symm
      (sortLayers_sorted input) hc] at hc
    exact hc

/-- Claim C3 witness: two overlapping layers (both of thickness 1 at depth 0)
in both input orders, instantiated over the rationals. -/
theorem multiLayer_new_overlap_witness :
    (MultiLayer.new qOps [⟨1, 0, 1, 1⟩, ⟨1, 0, 1, 0⟩] = none
        ↔ ¬ List.Chain' fits (sortLayers ([⟨1, 0, 1, 1⟩, ⟨1, 0, 1, 0⟩] : List (Layer ℚ))))
      ∧ (MultiLayer.new qOps [⟨1, 0, 1, 1⟩, ⟨1, 0, 1, 0⟩] = none
          ↔ MultiLayer.new qOps [⟨1, 0, 1, 0⟩, ⟨1, 0, 1, 1⟩] = none)
      ∧ MultiLayer.new qOps ([] : List (Layer ℚ)) = some ⟨[]⟩ :=
  multiLayer_new_overlap qOps [⟨1, 0, 1, 1⟩, ⟨1, 0, 1, 0⟩] [⟨1, 0, 1, 0⟩, ⟨1, 0, 1, 1⟩]
    (by decide) (List.Perm.swap (⟨1, 0, 1, 0⟩ : Layer ℚ) ⟨1, 0, 1, 1⟩ [])

/-- Claim C4: on success, the first sorted layer keeps the caller-supplied
irradiance of the shallowest input layer, and every later layer's stored
irradiance is the previous stored irradiance attenuated by Beer's law
through the previous layer. -/
theorem multiLayer_new_e0_invariant (ops : Ops R) (input : List (Layer R))
    (ml : MultiLayer R) (h : MultiLayer.new ops input = some ml) :
    (ml.layers.map Layer.e0).head? = ((sortLayers input).map Layer.e0).head?
      ∧ (∀ l0, (sortLayers input).head? = some l0 → l0 ∈ input ∧ ∀ l ∈ input, l0.z0 ≤ l.z0)
      ∧ ∀ (i : ℕ) (hi : i + 1 < ml.layers.length),
          (ml.layers.get ⟨i + 1, hi⟩).e0
            = (ml.layers.get ⟨i, Nat.lt_of_succ_lt hi⟩).e0
              * ops.exp (-((ml.layers.get ⟨i, Nat.lt_of_succ_lt hi⟩).mu_a
                  * (ml.layers.get ⟨i, Nat.lt_of_succ_lt hi⟩).d)) := by
  have hbr : ∀ a b : R, a * b * (-1) = -(b * a) := fun a b => by ring
  have hmin : ∀ l0, (sortLayers input).head? = some l0 →
      l0 ∈ input ∧ ∀ l ∈ input, l0.z0 ≤ l.z0 := by
    intro l0 h0
    cases hs : sortLayers input with
    | nil => rw [hs] at h0; cases h0
    | cons a rest =>
      rw [hs] at h0
      have ha : a = l0 := by simpa using h0
      subst ha
      have hsorted := sortLayers_sorted input
      rw [hs, List.sorted_cons] at hsorted
      constructor
      · exact (sortLayers_perm input).mem_iff.1 (hs ▸ List.mem_cons_self a rest)
      · intro l hl
        have hl' : l ∈ sortLayers input := (sortLayers_perm input).mem_iff.2 hl
        rw [hs] at hl'
        rcases List.mem_cons.1 hl' with hla | hlr
        · rw [hla]
        · exact hsorted.1 l hlr
  rcases new_some_cases ops input ml h with ⟨hs, hml⟩ | ⟨layer, rest, rest', hs, hp, hml⟩
  · subst hml
    refine ⟨by rw [hs], hmin, ?_⟩
    intro i hi
    exact absurd hi (by simp)
  · subst hml
    have hchain : e0chain ops layer.e0 (layer :: rest') :=
      ⟨rfl, propagate_some_e0chain ops rest _ _ rest' hp⟩
    refine ⟨by rw [hs]; simp, hmin, ?_⟩
    intro i hi
    rw [← hbr]
    exact e0chain_get ops (layer :: rest') layer.e0 hchain i hi

/-- Claim C4 witness: a two-layer stack over the rationals; the head
irradiances of the constructed stack and of the sorted input agree. -/
theorem multiLayer_new_e0_invariant_witness :
    ((MultiLayer.mk [⟨1, 0, 1, 1⟩, ⟨1, 1, 1, 1⟩] : MultiLayer ℚ).layers.map Layer.e0).head?
      = ((sortLayers [⟨1, 0, 1, 1⟩, ⟨1, 1, 1, 0⟩]).map Layer.e0).head? :=
  (multiLayer_new_e0_invariant qOps [⟨1, 0, 1, 1⟩, ⟨1, 1, 1, 0⟩]
    ⟨[⟨1, 0, 1, 1⟩, ⟨1, 1, 1, 1⟩]⟩
    (by simp [MultiLayer.new, sortLayers, z0le, propagate, qOps])).1

/-- Claim C9: construction only reorders the layers and rewrites irradiances:
the count is preserved, each stored layer's d, z0 and mu_a equal those of the
corresponding sorted input layer, the first sorted layer's irradiance is
unchanged, and the sorted list is a permutation of the input. -/
theorem multiLayer_new_frame (ops : Ops R) (input : List (Layer R))
    (ml : MultiLayer R) (h : MultiLayer.new ops input = some ml) :
    ml.layers.length = input.length
      ∧ ml.layers.map shape = (sortLayers input).map shape
      ∧ (ml.layers.map Layer.e0).head? = ((sortLayers input).map Layer.e0).head?
      ∧ List.Perm (sortLayers input) input := by
  have hshape : ml.layers.map shape = (sortLayers input).map shape := by
    rcases new_some_cases ops input ml h with ⟨hs, hml⟩ | ⟨layer, rest, rest', hs, hp, hml⟩
    · subst hml; rw [hs]
    · subst hml
      rw [hs]
      simp only [List.map_cons]
      rw [propagate_some_shape ops rest _ _ rest' hp]
  have hhead : (ml.layers.map Layer.e0).head? = ((sortLayers input).map Layer.e0).head? := by
    rcases new_some_cases ops input ml h with ⟨hs, hml⟩ | ⟨layer, rest, rest', hs, hp, hml⟩
    · subst hml; rw [hs]
    · subst hml; rw [hs]; simp
  refine ⟨?_, hshape, hhead, sortLayers_perm input⟩
  have := congrArg List.length hshape
  simp only [List.length_map] at this
  rw [this, (sortLayers_perm input).length_eq]

/-- Claim C9 witness: the stored layers of a concrete two-layer stack have
the same count as the input collection. -/
theorem multiLayer_new_frame_witness :
    (MultiLayer.mk [⟨1, 0, 1, 1⟩, ⟨1, 1, 1, 1⟩] : MultiLayer ℚ).layers.length
      = ([⟨1, 0, 1, 1⟩, ⟨1, 1, 1, 0⟩] : List (Layer ℚ)).length :=
  (multiLayer_new_frame qOps [⟨1, 0, 1, 1⟩, ⟨1, 1, 1, 0⟩]
    ⟨[⟨1, 0, 1, 1⟩, ⟨1, 1, 1, 1⟩]⟩
    (by simp [MultiLayer.new, sortLayers, z0le, propagate, qOps])).1

/-- Claim C5: MultiLayer::evaluate_with is the sum of the beam evaluated on
each contained layer independently, and a MultiLayer built from a single
layer reproduces that layer's direct beam evaluation exactly, for any beam
variant. -/
theorem multiLayer_evaluate_with_sum (ops : Ops R) (precision : ℕ) (beam : Beam R)
    (thermal_properties : ThermalProperties R) (ml : MultiLayer R) (z r t : R) :
    ml.evaluate_with ops precision beam thermal_properties z r t
        = (ml.layers.map
            (fun layer => beam.evaluate_with ops precision thermal_properties layer z r t)).sum
      ∧ ∀ layer : Layer R,
          MultiLayer.new ops [layer] = some ⟨[layer]⟩
            ∧ (MultiLayer.mk [layer]).evaluate_with ops precision beam thermal_properties z r t
                = beam.evaluate_with ops precision thermal_properties layer z r t := by
  refine ⟨?_, fun layer => ⟨rfl, ?_⟩⟩
  · rw [MultiLayer.evaluate_with, foldl_add_map, zero_add]
  · rw [MultiLayer.evaluate_with, foldl_add_map]
    simp

/-- Claim C10: a MultiLayer holding no layers — exactly what MultiLayer::new
returns on the empty collection — evaluates to zero for every beam, thermal
properties, precision and query point. -/
theorem multiLayer_empty_evaluates_zero (ops : Ops R) (precision : ℕ) (beam : Beam R)
    (thermal_properties : ThermalProperties R) (z r t : R) :
    MultiLayer.new ops ([] : List (Layer R)) = some ⟨[]⟩
      ∧ (MultiLayer.mk ([] : List (Layer R))).evaluate_with
          ops precision beam thermal_properties z r t = 0 :=
  ⟨rfl, rfl⟩

/-- Claim C8: both temperature_rise entry points are exact pass-throughs to
the quadrature engine applied to the one-argument integrand, and for a stack
holding a single layer the two entry points agree. -/
theorem temperature_rise_delegates (ops : Ops R) (precision : ℕ)
    (quadrature : Quadrature R) (beam : Beam R)
    (thermal_properties : ThermalProperties R) (layer : Layer R) (ml : MultiLayer R)
    (z r epsilon : R) (bounds : R × R) :
    temperature_rise ops precision quadrature beam thermal_properties layer
        z r epsilon bounds
        = quadrature.integrate
            (fun t => beam.evaluate_with ops precision thermal_properties layer z r t)
            epsilon bounds
      ∧ ml.temperature_rise ops precision quadrature beam thermal_properties
          z r epsilon bounds
          = quadrature.integrate
              (fun t => ml.evaluate_with ops precision beam thermal_properties z r t)
              epsilon bounds
      ∧ (MultiLayer.mk [layer]).temperature_rise ops precision quadrature beam
          thermal_properties z r epsilon bounds
          = temperature_rise ops precision quadrature beam thermal_properties layer
              z r epsilon bounds := by
  refine ⟨rfl, rfl, ?_⟩
  rw [MultiLayer.temperature_rise, temperature_rise]
  congr 1
  funext t
  rw [MultiLayer.evaluate_with, foldl_add_map]
  simp

/-- The diffusion branch of LargeBeam, rewritten into the spec's grouping of
the four terms. -/
lemma largeBeam_diffusion_eq (ops : Ops R) (precision : ℕ)
    (th : ThermalProperties R) (layer : Layer R) (z r t : R) (ht : t ≠ 0) :
    LargeBeam.evaluate_with ops precision th layer z r t =
      layer.mu_a * layer.e0 / (2 * th.rho * th.c)
        * ops.exp (-(layer.mu_a * (z - layer.z0)))
        * ops.exp (layer.mu_a ^ 2 * (th.k / (th.rho * th.c)) * t)
        * (ops.erf ((layer.z0 + layer.d - z)
              * (1 / ops.sqrt (4 * (th.k / (th.rho * th.c)) * t))
              + layer.mu_a * ops.sqrt (th.k / (th.rho * th.c) * t))
          - ops.erf ((layer.z0 - z)
              * (1 / ops.sqrt (4 * (th.k / (th.rho * th.c)) * t))
              + layer.mu_a * ops.sqrt (th.k / (th.rho * th.c) * t))) := by
  simp only [LargeBeam.evaluate_with, if_neg ht]
  ring_nf

/-- Claim C1: for positive time, LargeBeam::evaluate_with is
term1·term2·term3·term4 with alpha = k/(rho·c), term1 = mu_a·e0/(2·rho·c),
term2 = exp(-mu_a·(z-z0)), term3 = exp(mu_a²·alpha·t),
term4 = erf((z0+d-z)/sqrt(4·alpha·t) + mu_a·sqrt(alpha·t))
      - erf((z0-z)/sqrt(4·alpha·t) + mu_a·sqrt(alpha·t)),
and the result does not depend on the radial offset r. -/
theorem largeBeam_formula (ops : Ops R) (precision : ℕ)
    (th : ThermalProperties R) (layer : Layer R) (z r t : R) (ht : 0 < t) :
    LargeBeam.evaluate_with ops precision th layer z r t =
        layer.mu_a * layer.e0 / (2 * th.rho * th.c)
          * ops.exp (-(layer.mu_a * (z - layer.z0)))
          * ops.exp (layer.mu_a ^ 2 * (th.k / (th.rho * th.c)) * t)
          * (ops.erf ((layer.z0 + layer.d - z)
                * (1 / ops.sqrt (4 * (th.k / (th.rho * th.c)) * t))
                + layer.mu_a * ops.sqrt (th.k / (th.rho * th.c) * t))
            - ops.erf ((layer.z0 - z)
                * (1 / ops.sqrt (4 * (th.k / (th.rho * th.c)) * t))
                + layer.mu_a * ops.sqrt (th.k / (th.rho * th.c) * t)))
      ∧ ∀ r' : R, LargeBeam.evaluate_with ops precision th layer z r t
          = LargeBeam.evaluate_with ops precision th layer z r' t :=
  ⟨largeBeam_diffusion_eq ops precision th layer z r t (ne_of_gt ht), fun _ => rfl⟩

/-- Claim C1 witness: the formula instantiated over the rationals at the
fixture layer, z = 0, r = 0, t = 1. -/
theorem largeBeam_formula_witness :
    LargeBeam.evaluate_with qOps 64 testProperties testLayer 0 0 1 =
      testLayer.mu_a * testLayer.e0 / (2 * testProperties.rho * testProperties.c)
        * qOps.exp (-(testLayer.mu_a * (0 - testLayer.z0)))
        * qOps.exp (testLayer.mu_a ^ 2
            * (testProperties.k / (testProperties.rho * testProperties.c)) * 1)
        * (qOps.erf ((testLayer.z0 + testLayer.d - 0)
              * (1 / qOps.sqrt (4
                  * (testProperties.k / (testProperties.rho * testProperties.c)) * 1))
              + testLayer.mu_a
                * qOps.sqrt (testProperties.k / (testProperties.rho * testProperties.c) * 1))
          - qOps.erf ((testLayer.z0 - 0)
              * (1 / qOps.sqrt (4
                  * (testProperties.k / (testProperties.rho * testProperties.c)) * 1))
              + testLayer.mu_a
                * qOps.sqrt (testProperties.k / (testProperties.rho * testProperties.c) * 1))) :=
  (largeBeam_formula qOps 64 testProperties testLayer 0 0 1 one_pos).1

/-- Claim C6: at exactly t = 0 LargeBeam takes the no-diffusion branch,
returning term1·term2 = mu_a·e0/(2·rho·c)·exp(-mu_a·(z-z0)); every strictly
positive t, however small, takes the full diffusion formula. -/
theorem largeBeam_zero_time (ops : Ops R) (precision : ℕ)
    (th : ThermalProperties R) (layer : Layer R) (z r : R) :
    LargeBeam.evaluate_with ops precision th layer z r 0
        = layer.mu_a * layer.e0 / (2 * th.rho * th.c)
          * ops.exp (-(layer.mu_a * (z - layer.z0)))
      ∧ ∀ t : R, 0 < t →
          LargeBeam.evaluate_with ops precision th layer z r t =
            layer.mu_a * layer.e0 / (2 * th.rho * th.c)
              * ops.exp (-(layer.mu_a * (z - layer.z0)))
              * ops.exp (layer.mu_a ^ 2 * (th.k / (th.rho * th.c)) * t)
              * (ops.erf ((layer.z0 + layer.d - z)
                    * (1 / ops.sqrt (4 * (th.k / (th.rho * th.c)) * t))
                    + layer.mu_a * ops.sqrt (th.k / (th.rho * th.c) * t))
                - ops.erf ((layer.z0 - z)
                    * (1 / ops.sqrt (4 * (th.k / (th.rho * th.c)) * t))
                    + layer.mu_a * ops.sqrt (th.k / (th.rho * th.c) * t))) := by
  constructor
  · simp only [LargeBeam.evaluate_with, if_true, eq_self_iff_true]
    ring_nf
  · exact fun t ht => largeBeam_diffusion_eq ops precision th layer z r t (ne_of_gt ht)

/-- Claim C6 witness: the diffusion branch taken at the strictly positive
time t = 1 over the rationals. -/
theorem largeBeam_zero_time_witness :
    LargeBeam.evaluate_with qOps 64 testProperties testLayer 1 0 1 =
      testLayer.mu_a * testLayer.e0 / (2 * testProperties.rho * testProperties.c)
        * qOps.exp (-(testLayer.mu_a * (1 - testLayer.z0)))
        * qOps.exp (testLayer.mu_a ^ 2
            * (testProperties.k / (testProperties.rho * testProperties.c)) * 1)
        * (qOps.erf ((testLayer.z0 + testLayer.d - 1)
              * (1 / qOps.sqrt (4
                  * (testProperties.k / (testProperties.rho * testProperties.c)) * 1))
              + testLayer.mu_a
                * qOps.sqrt (testProperties.k / (testProperties.rho * testProperties.c) * 1))
          - qOps.erf ((testLayer.z0 - 1)
              * (1 / qOps.sqrt (4
                  * (testProperties.k / (testProperties.rho * testProperties.c)) * 1))
              + testLayer.mu_a
                * qOps.sqrt (testProperties.k / (testProperties.rho * testProperties.c) * 1))) :=
  (largeBeam_zero_time qOps 64 testProperties testLayer 1 0).2 1 one_pos

/-- Claim C7: at exactly t = 0, FlatTopBeam returns the LargeBeam z-factor
whenever r ≤ radius (boundary included) and exactly zero whenever
r > radius. -/
theorem flatTopBeam_zero_time (radius : R) (ops : Ops R) (precision : ℕ)
    (th : ThermalProperties R) (layer : Layer R) (z r : R) :
    (r ≤ radius →
        FlatTopBeam.evaluate_with radius ops precision th layer z r 0
          = LargeBeam.evaluate_with ops precision th layer z r 0)
      ∧ (radius < r →
          FlatTopBeam.evaluate_with radius ops precision th layer z r 0 = 0) := by
  constructor
  · intro hr
    simp [FlatTopBeam.evaluate_with, not_lt.2 hr]
  · intro hr
    simp [FlatTopBeam.evaluate_with, hr]

/-- Claim C7 witness: at t = 0, on the boundary r = radius = 1 the z-factor
is returned; outside the radius (r = 1 > radius = 0) the result is zero. -/
theorem flatTopBeam_zero_time_witness :
    (FlatTopBeam.evaluate_with 1 qOps 64 testProperties testLayer 1 1 0
        = LargeBeam.evaluate_with qOps 64 testProperties testLayer 1 1 0)
      ∧ FlatTopBeam.evaluate_with 0 qOps 64 testProperties testLayer 1 1 0 = 0 :=
  ⟨(flatTopBeam_zero_time 1 qOps 64 testProperties testLayer 1 1).1 le_rfl,
    (flatTopBeam_zero_time 0 qOps 64 testProperties testLayer 1 1).2 zero_lt_one⟩

/-- Claim C2: for positive time, FlatTopBeam is the LargeBeam z-factor for
the same arguments times a radial factor: 1 - exp(-radius²/(4·alpha·t)) on
axis (r = 0), and 1 - marcum_q(1, r/(2·alpha·t), radius/(2·alpha·t),
precision) off axis, with alpha = k/(rho·c). -/
theorem flatTopBeam_formula (radius : R) (ops : Ops R) (precision : ℕ)
    (th : ThermalProperties R) (layer : Layer R) (z r t : R) (ht : 0 < t) :
    (r = 0 →
        FlatTopBeam.evaluate_with radius ops precision th layer z r t
          = LargeBeam.evaluate_with ops precision th layer z r t
            * (1 - ops.exp (-(radius ^ 2 / (4 * (th.k / (th.rho * th.c)) * t)))))
      ∧ (r ≠ 0 →
          FlatTopBeam.evaluate_with radius ops precision th layer z r t
            = LargeBeam.evaluate_with ops precision th layer z r t
              * (1 - ops.marcum_q 1 (r / (2 * (th.k / (th.rho * th.c)) * t))
                  (radius / (2 * (th.k / (th.rho * th.c)) * t)) precision)) := by
  have ht' : t ≠ 0 := ne_of_gt ht
  have h1 : ¬(t = 0 ∧ radius < r) := fun hcon => ht' hcon.1
  constructor
  · intro hr
    simp only [FlatTopBeam.evaluate_with]
    rw [if_neg h1, if_neg ht', if_pos hr]
    ring_nf
  · intro hr
    simp only [FlatTopBeam.evaluate_with]
    rw [if_neg h1, if_neg ht', if_neg hr]
    ring_nf

/-- Claim C2 witness: the on-axis radial factor at radius 1, r = 0, t = 1
over the rationals. -/
theorem flatTopBeam_formula_witness :
    FlatTopBeam.evaluate_with 1 qOps 64 testProperties testLayer 1 0 1
      = LargeBeam.evaluate_with qOps 64 testProperties testLayer 1 0 1
        * (1 - qOps.exp (-((1 : ℚ) ^ 2
            / (4 * (testProperties.k / (testProperties.rho * testProperties.c)) * 1)))) :=
  (flatTopBeam_formula 1 qOps 64 testProperties testLayer 1 0 1 one_pos).1 rfl

end Greens
